import Mathlib

/-!
Shallow embedding of the session-orchestration core of the repository
(`src/spawnClaude.ts` and `src/types.ts`).

JavaScript `Map`s are embedded as association lists with get/set/delete
operations, JS string truthiness is made explicit (`jsTruthy`), and the
engine's event stream is a list of typed events consumed by a per-event
transition function mirroring the body of the `for await` loop of
`spawnClaude` section by section.  Abort controllers are named by numbers.
-/

/-- Truthiness of a `string | undefined` value: `undefined` and `""` are falsy. -/
def jsTruthy : Option String → Bool
  | none => false
  | some s => s != ""

/-- `a || b` for a `string | undefined` left operand. -/
def jsOr (o : Option String) (d : String) : String :=
  match o with
  | none => d
  | some s => if s = "" then d else s

/-- Rendering of a `string | undefined` value inside a template literal. -/
def jsShow : Option String → String
  | some s => s
  | none => "undefined"

/-- `Map.get`: the value stored under a key. -/
def mapGet {β : Type} : List (String × β) → String → Option β
  | [], _ => none
  | (k, v) :: rest, key => if k = key then some v else mapGet rest key

/-- `Map.delete`: remove the entry stored under a key. -/
def mapDelete {β : Type} : List (String × β) → String → List (String × β)
  | [], _ => []
  | (k, v) :: rest, key =>
    if k = key then mapDelete rest key else (k, v) :: mapDelete rest key

/-- `Map.set`: store a value under a key, replacing any previous entry. -/
def mapSet {β : Type} (l : List (String × β)) (key : String) (v : β) :
    List (String × β) :=
  (key, v) :: mapDelete l key

/-- `ApprovableTools` from `types.ts` (the string values of the `ToolType`
enum members listed there; `Bash` appears twice in the source array). -/
def ApprovableTools : List String :=
  ["Write", "Edit", "Bash", "MultiEdit", "Glob", "WebSearch", "WebFetch",
   "Bash", "MCPTool"]

/-- `isApprovableTool` from `types.ts`: membership test in `ApprovableTools`. -/
def isApprovableTool (value : String) : Bool :=
  ApprovableTools.contains value

/-- A tool input object, modelled as a record of string-valued fields. -/
abbrev ToolInput : Type := List (String × String)

/-- The SDK's `PermissionResult`: allow with a (possibly updated) input, or
deny with a message. -/
inductive PermissionResult : Type
  | allow (updatedInput : ToolInput)
  | deny (message : String)
deriving DecidableEq

/-- One entry of `pendingPermissionRequests`.  The resolver callback is
modelled by the promise-cell table of `BrokerState`; the armed timer is
modelled by the presence of the entry itself, because `clearTimeout` happens
exactly when the entry is deleted. -/
structure PendingEntry : Type where
  requestId : String
  sessionId : String
deriving DecidableEq

/-- The process-wide pending-approval registry together with the promise cells
that registered resolver callbacks write into.  A cell holds `none` until its
promise is resolved; a JS promise keeps the first value it was resolved with. -/
structure BrokerState : Type where
  registry : List (String × PendingEntry)
  promises : List (String × Option PermissionResult)
deriving DecidableEq

/-- The lookup loop of `handlePermissionResponse`: the first registry entry
whose fields match both the session and the request identifier. -/
def findMatch : List (String × PendingEntry) → String → String → Option String
  | [], _, _ => none
  | (key, e) :: rest, sessionId, requestId =>
    if e.sessionId = sessionId ∧ e.requestId = requestId then some key
    else findMatch rest sessionId requestId

/-- Resolving a promise cell: the first resolution wins, later ones are
ignored. -/
def promiseResolve : List (String × Option PermissionResult) → String →
    PermissionResult → List (String × Option PermissionResult)
  | [], _, _ => []
  | (k, v) :: rest, key, r =>
    if k = key then
      (k, match v with | none => some r | some v2 => some v2) :: rest
    else (k, v) :: promiseResolve rest key r

/-- `handlePermissionResponse` from `spawnClaude.ts`: find the pending request
matching both identifiers; if found, clear its timer, resolve it with the
caller's response, delete the entry and report `true`; otherwise report
`false` (logged as a warning in the source). -/
def handlePermissionResponse (st : BrokerState) (sessionId requestId : String)
    (response : PermissionResult) : BrokerState × Bool :=
  match findMatch st.registry sessionId requestId with
  | some key =>
    ({ registry := mapDelete st.registry key,
       promises := promiseResolve st.promises key response }, true)
  | none => (st, false)

/-- The approval timeout armed by `canUseTool` (`setTimeout(..., 100000)`). -/
def permissionRequestTimeoutMs : Nat := 100000

/-- The registration performed inside the promise returned by `canUseTool`:
a fresh promise cell plus a registry entry with an armed timer. -/
def registerPermissionRequest (st : BrokerState) (key : String)
    (e : PendingEntry) : BrokerState :=
  { registry := mapSet st.registry key e, promises := mapSet st.promises key none }

/-- The timeout callback armed by `canUseTool`: delete the registry entry and
resolve the promise with a deny decision carrying the timeout message.  The
timer can only fire while the entry is present (an external resolution clears
the timer in the same step that deletes the entry), hence the guard. -/
def timeoutFire (st : BrokerState) (key : String) : BrokerState :=
  match mapGet st.registry key with
  | some _ =>
    { registry := mapDelete st.registry key,
      promises := promiseResolve st.promises key
        (.deny "Permission request timed out") }
  | none => st

/-- The operations that mutate the process-wide broker state. -/
inductive BrokerAction : Type
  | resolve (sessionId requestId : String) (response : PermissionResult)
  | fireTimeout (key : String)
  | register (key : String) (entry : PendingEntry)
deriving DecidableEq

/-- Apply one broker operation; the boolean is the return value of
`handlePermissionResponse` (and `false` for the other operations). -/
def applyBrokerAction (st : BrokerState) : BrokerAction → BrokerState × Bool
  | .resolve sessionId requestId response =>
    handlePermissionResponse st sessionId requestId response
  | .fireTimeout key => (timeoutFire st key, false)
  | .register key e => (registerPermissionRequest st key e, false)

/-- Run a sequence of broker operations. -/
def runBroker (st : BrokerState) : List BrokerAction → BrokerState
  | [] => st
  | a :: rest => runBroker (applyBrokerAction st a).1 rest

/-- Number of `handlePermissionResponse` calls for the given pair that return
`true` along a sequence of broker operations. -/
def resolveSuccesses (sessionId requestId : String) (st : BrokerState) :
    List BrokerAction → Nat
  | [] => 0
  | a :: rest =>
    (match a with
     | .resolve s r _ =>
       if s = sessionId ∧ r = requestId ∧ (applyBrokerAction st a).2 = true
       then 1 else 0
     | _ => 0) + resolveSuccesses sessionId requestId (applyBrokerAction st a).1 rest

/-- Interference allowed around one tracked approval: other callers may use
the broker freely as long as their registrations use a fresh composite key and
a fresh (session, request) pair, which the `uuidv4` request identifiers of the
source guarantee. -/
def actOkB (key0 sessionId0 requestId0 : String) : BrokerAction → Bool
  | .register k e =>
    (k != key0) && !(e.sessionId == sessionId0 && e.requestId == requestId0)
  | _ => true

/-- A registry entry matching the tracked pair is present. -/
def present (sessionId0 requestId0 : String) (st : BrokerState) : Bool :=
  (findMatch st.registry sessionId0 requestId0).isSome

/-- Invariant tying the tracked approval's key and pair together: every
matching entry sits under the tracked key, the entry under the tracked key
(if any) matches the pair, and while it is present its promise cell exists and
is still unresolved. -/
def BrokerInv (key0 sessionId0 requestId0 : String) (st : BrokerState) : Prop :=
  (∀ p ∈ st.registry,
      p.2.sessionId = sessionId0 ∧ p.2.requestId = requestId0 → p.1 = key0) ∧
  (∀ e : PendingEntry, (key0, e) ∈ st.registry →
      e.sessionId = sessionId0 ∧ e.requestId = requestId0) ∧
  ((∃ e : PendingEntry, (key0, e) ∈ st.registry) →
      mapGet st.promises key0 = some none)

/-- One content block of an engine message: a type tag plus opaque payload. -/
structure Block : Type where
  btype : String
  payload : String
deriving DecidableEq

/-- `message.message.content` of a user event: a plain string or a block
array. -/
inductive UserContent : Type
  | str (s : String)
  | blocks (bs : List Block)
deriving DecidableEq

/-- The engine events consumed by the `for await` loop of `spawnClaude`
(`other` stands for the event tags the loop intentionally drops). -/
inductive SDKMessage : Type
  | assistant (content : List Block) (session_id : String)
  | user (content : UserContent) (session_id : String)
  | system (subtype : String) (session_id : String)
  | result (subtype : String)
  | other
deriving DecidableEq

/-- The `data` payloads carried by `claude-response` messages. -/
inductive MsgData : Type
  | assistantData (content : List Block) (session_id : String)
  | contentOnly (content : List Block)
  | toolResultData (content : List Block)
deriving DecidableEq

/-- The normalized messages `spawnClaude` sends to the sink. -/
inductive WSMessage : Type
  | sessionCreated (sessionId : Option String)
  | claudeResponse (data : MsgData) (sessionId : Option String)
  | claudeError (error : String) (sessionId : Option String)
  | claudeComplete (exitCode : Nat) (isNewSession : Bool) (sessionId : Option String)
  | permissionRequest (toolName : String) (input : ToolInput) (requestId : String)
      (sessionId : Option String)
deriving DecidableEq

/-- The mutable locals of one `spawnClaude` invocation together with the
process-wide `activeClaudeControllers` map. -/
structure RunState : Type where
  capturedSessionId : Option String
  sessionCreatedSent : Bool
  controllers : List (String × Nat)
deriving DecidableEq

/-- Source lines 300-365: convert one event and send the resulting
`claude-response` messages.  An assistant event's content array is sent a
second time as a separate message; the source guards that second send with the
truthiness of `convertedMessage.content`, and a JS array is truthy even when
empty, so the second send is unconditional.  Both branches of the
first-content-block check of the user case build the same converted message. -/
def convertEmits (st : RunState) : SDKMessage → List WSMessage
  | .assistant content session_id =>
    [.claudeResponse (.assistantData content session_id) st.capturedSessionId,
     .claudeResponse (.contentOnly content) st.capturedSessionId]
  | .user content _ =>
    match content with
    | .str _ => []
    | .blocks bs =>
      if bs.length > 0 then
        match bs.head? with
        | some firstContent =>
          if firstContent.btype = "tool_result" then
            [.claudeResponse (.toolResultData bs) st.capturedSessionId]
          else
            [.claudeResponse (.toolResultData bs) st.capturedSessionId]
        | none => []
      else []
  | _ => []

/-- Source lines 367-394: handle the session identifier carried by a
`system`/`init` event, rebinding the session identity, moving the abort
controller under the new key and sending one `session-created` message when
the engine assigned a different session than the one currently known. -/
def initTransition (processKey : String) (ctrl : Nat) (st : RunState) :
    SDKMessage → RunState × List WSMessage
  | .system subtype sdkSessionId =>
    if subtype = "init" then
      if sdkSessionId ≠ "" ∧ some sdkSessionId ≠ st.capturedSessionId then
        let st1 : RunState := { st with capturedSessionId := some sdkSessionId }
        let st2 : RunState :=
          if processKey ≠ sdkSessionId ∧ sdkSessionId ≠ "" then
            { st1 with controllers :=
                (mapSet (mapDelete st1.controllers processKey) sdkSessionId ctrl) }
          else st1
        if st2.sessionCreatedSent = false then
          ({ st2 with sessionCreatedSent := true },
           [.sessionCreated (some sdkSessionId)])
        else (st2, [])
      else if sdkSessionId ≠ "" then
        ({ st with capturedSessionId := some sdkSessionId }, [])
      else (st, [])
    else (st, [])
  | _ => (st, [])

/-- Source lines 396-425: on a terminal `result` event, drop the controller
registration under `capturedSessionId || processKey`, derive the exit code
from the result subtype, and send one `claude-complete` message whose
new-session flag is computed from the current `capturedSessionId` and the
prompt (`!capturedSessionId && !!command`). -/
def resultTransition (command processKey : String) (st : RunState) :
    SDKMessage → RunState × List WSMessage
  | .result subtype =>
    let finalSessionId := jsOr st.capturedSessionId processKey
    let exitCode : Nat := if subtype = "success" then 0 else 1
    ({ st with controllers := mapDelete st.controllers finalSessionId },
     [.claudeComplete exitCode
        (!jsTruthy st.capturedSessionId && !(command == ""))
        st.capturedSessionId])
  | _ => (st, [])

/-- One iteration of the `for await` loop: conversion and response sending,
then init-session handling, then result handling, in source order. -/
def stepEvent (command processKey : String) (ctrl : Nat) (st : RunState)
    (m : SDKMessage) : RunState × List WSMessage :=
  let emits := convertEmits st m
  let p1 := initTransition processKey ctrl st m
  let p2 := resultTransition command processKey p1.1 m
  (p2.1, emits ++ p1.2 ++ p2.2)

/-- Consume the engine's event stream in arrival order. -/
def runEvents (command processKey : String) (ctrl : Nat) :
    RunState → List SDKMessage → RunState × List WSMessage
  | st, [] => (st, [])
  | st, m :: rest =>
    let p := stepEvent command processKey ctrl st m
    let q := runEvents command processKey ctrl p.1 rest
    (q.1, p.2 ++ q.2)

/-- `spawnClaude` on the normal (non-throwing) path: set up the provisional
process key (`capturedSessionId || Date.now().toString()`, the placeholder
modelled by `fresh`), register the abort controller under it, and consume the
stream.  The returned state carries the final `capturedSessionId` (the
function's return value) and the final controller registry. -/
def spawnClaudeModel (command : String) (resume : Option String) (fresh : String)
    (ctrl : Nat) (controllers0 : List (String × Nat)) (events : List SDKMessage) :
    RunState × List WSMessage :=
  let processKey := jsOr resume fresh
  let st0 : RunState :=
    { capturedSessionId := resume
      sessionCreatedSent := false
      controllers := mapSet controllers0 processKey ctrl }
  runEvents command processKey ctrl st0 events

/-- `abortClaudeSession` from `spawnClaude.ts`: look up the controller by the
given session identifier; if present, abort it, delete the entry and return
`true`; otherwise return `false`. -/
def abortClaudeSession (controllers : List (String × Nat)) (sessionId : String) :
    List (String × Nat) × Bool :=
  match mapGet controllers sessionId with
  | some _ => (mapDelete controllers sessionId, true)
  | none => (controllers, false)

/-- `spawnClaude` when a failure is thrown after processing a prefix of the
stream (source lines 449-475): delete the controller registration under
`capturedSessionId || Date.now().toString()` — the `Date.now()` call is made
at error time and is modelled by `freshErr` — then send a `claude-error`
message followed by a `claude-complete` message with exit code 1.  The source
then re-raises the failure to the caller. -/
def spawnClaudeOnError (command : String) (resume : Option String)
    (fresh freshErr errText : String) (ctrl : Nat)
    (controllers0 : List (String × Nat)) (events : List SDKMessage) :
    RunState × List WSMessage :=
  let processKey := jsOr resume fresh
  let st0 : RunState :=
    { capturedSessionId := resume
      sessionCreatedSent := false
      controllers := mapSet controllers0 processKey ctrl }
  let p := runEvents command processKey ctrl st0 events
  let finalSessionId := jsOr p.1.capturedSessionId freshErr
  ({ p.1 with controllers := mapDelete p.1.controllers finalSessionId },
   p.2 ++
     [.claudeError errText p.1.capturedSessionId,
      .claudeComplete 1 (!jsTruthy p.1.capturedSessionId && !(command == ""))
        p.1.capturedSessionId])

/-- The outcome of the `canUseTool` callback: an immediately returned
decision, or a promise that will be settled through the broker under the
given composite key. -/
inductive CanUseOutcome : Type
  | immediate (result : PermissionResult)
  | awaitBroker (compositeKey : String)
deriving DecidableEq

/-- The observable effects of one `canUseTool` call: its outcome, the
messages it sent to the sink, and the registry entry it created. -/
structure CanUseEffects : Type where
  outcome : CanUseOutcome
  sent : List WSMessage
  registered : Option (String × PendingEntry)
deriving DecidableEq

/-- Source lines 200-259: the `canUseTool` callback.  A non-approvable tool is
allowed immediately with its input passed through unmodified.  An approvable
tool is denied immediately when no session identifier is currently known
(`!capturedSessionId`); otherwise a fresh request identifier (`requestId`,
a `uuidv4` value in the source) is drawn, a `permission-request` message is
sent, and a pending approval is registered under the composite key
`` `${resume}:${requestId}` `` with session field `capturedSessionId || ''`. -/
def canUseTool (resume capturedSessionId : Option String) (toolName : String)
    (input : ToolInput) (requestId : String) : CanUseEffects :=
  if isApprovableTool toolName then
    if !jsTruthy capturedSessionId then
      { outcome := .immediate (.deny "Cannot approve permission without a session ID")
        sent := []
        registered := none }
    else
      let compositeKey := jsShow resume ++ ":" ++ requestId
      { outcome := .awaitBroker compositeKey
        sent := [.permissionRequest toolName input requestId capturedSessionId]
        registered := some (compositeKey,
          { requestId := requestId, sessionId := jsOr capturedSessionId "" }) }
  else
    { outcome := .immediate (.allow input)
      sent := []
      registered := none }

/-- One collected entry of a `HeadlessResult` (`{type, content}`). -/
structure HeadlessMessage : Type where
  type : String
  content : MsgData
deriving DecidableEq

/-- The mutable locals of `spawnClaudeHeadless`'s collector stream. -/
structure CollectorState : Type where
  messages : List HeadlessMessage
  finalSessionId : Option String
  finalExitCode : Nat
deriving DecidableEq

/-- Source lines 556-597: the collector's `write` handler for one envelope.
`session-created` and `claude-complete` update the captured session id when
the carried id is truthy; `claude-complete` stores `msg.exitCode || 0` (the
exit code is always present on the messages the orchestrator sends, so this
is the exit code itself); `claude-response` appends its payload (`msg.data`
is an object or array on every message the orchestrator sends, hence truthy). -/
def collectorStep (st : CollectorState) (m : WSMessage) : CollectorState :=
  match m with
  | .sessionCreated sid =>
    if jsTruthy sid then { st with finalSessionId := sid } else st
  | .claudeComplete exitCode _ sid =>
    let st1 := { st with finalExitCode := exitCode }
    if jsTruthy sid then { st1 with finalSessionId := sid } else st1
  | .claudeResponse d _ =>
    { st with messages := st.messages ++ [{ type := "claude-response", content := d }] }
  | _ => st

/-- `HeadlessResult` from `spawnClaude.ts`. -/
structure HeadlessResult : Type where
  sessionId : String
  messages : List HeadlessMessage
  exitCode : Nat
deriving DecidableEq

/-- `spawnClaudeHeadless` when the underlying `spawnClaude` call throws
(source lines 619-626): the catch block swallows the failure and returns
whatever the collector accumulated, with `finalExitCode || 1` as exit code
and `finalSessionId || ''` as session identifier.  `permissionMode` is forced
to `bypassPermissions`, which does not affect this pure model. -/
def spawnClaudeHeadlessOnError (command : String) (resume : Option String)
    (fresh freshErr errText : String) (ctrl : Nat) (events : List SDKMessage) :
    HeadlessResult :=
  let emitted := (spawnClaudeOnError command resume fresh freshErr errText ctrl [] events).2
  let c := emitted.foldl collectorStep
    { messages := [], finalSessionId := none, finalExitCode := 0 }
  { sessionId := jsOr c.finalSessionId ""
    messages := c.messages
    exitCode := if c.finalExitCode = 0 then 1 else c.finalExitCode }

/-- Specification-side description of the closed set of approval-requiring
tool categories: file write, file edit, multi-file edit, shell execution,
pattern search, external-web fetch, external-web search, and generic
external-integration calls. -/
def approvalRequiringToolNames : List String :=
  ["Write", "Edit", "MultiEdit", "Bash", "Glob", "WebFetch", "WebSearch", "MCPTool"]

/-- The `claude-response` payload carried by a sink message, if any. -/
def responsePayload : WSMessage → Option HeadlessMessage
  | .claudeResponse d _ => some { type := "claude-response", content := d }
  | _ => none

/-- The exit code of the last `claude-complete` message of a sink stream. -/
def observedExitCode (msgs : List WSMessage) : Option Nat :=
  msgs.foldl
    (fun acc m => match m with | .claudeComplete ec _ _ => some ec | _ => acc)
    none

/-- Recognize a `session-created` sink message. -/
def isSessionCreatedMsg : WSMessage → Bool
  | .sessionCreated _ => true
  | _ => false

/-- Recognize a `claude-response` sink message. -/
def isClaudeResponseMsg : WSMessage → Bool
  | .claudeResponse _ _ => true
  | _ => false

/-- Recognize a `system`/`init` engine event. -/
def isInitEvent : SDKMessage → Bool
  | .system subtype _ => subtype == "init"
  | _ => false

/-- Recognize a terminal `result` engine event. -/
def isResultEvent : SDKMessage → Bool
  | .result _ => true
  | _ => false

/-- End-to-end scenario 1 of the specification: prompt "hello", no resume
identifier, engine emits `init{session_id: "s1"}`, then an assistant turn
with one text block, then `result{subtype: "success"}`. -/
def scenario1Events : List SDKMessage :=
  [.system "init" "s1",
   .assistant [{ btype := "text", payload := "hi" }] "s1",
   .result "success"]

/-! ## Generic lemmas about the embedded structures -/

theorem mapGet_set_self {β : Type} (l : List (String × β)) (k : String) (v : β) :
    mapGet (mapSet l k v) k = some v := by
  simp [mapSet, mapGet]

theorem mapGet_delete_self {β : Type} (l : List (String × β)) (k : String) :
    mapGet (mapDelete l k) k = none := by
  induction l with
  | nil => rfl
  | cons p rest ih =>
    obtain ⟨a, b⟩ := p
    by_cases h : a = k <;> simp [mapDelete, mapGet, h, ih]

theorem mapGet_delete_ne {β : Type} (l : List (String × β)) (k kx : String)
    (h : kx ≠ k) : mapGet (mapDelete l k) kx = mapGet l kx := by
  induction l with
  | nil => rfl
  | cons p rest ih =>
    obtain ⟨a, b⟩ := p
    by_cases ha : a = k
    · subst ha; simp [mapDelete, mapGet, Ne.symm h, ih]
    · by_cases hx : a = kx <;> simp [mapDelete, mapGet, ha, hx, ih, h]

theorem mapGet_set_ne {β : Type} (l : List (String × β)) (k kx : String) (v : β)
    (h : kx ≠ k) : mapGet (mapSet l k v) kx = mapGet l kx := by
  simp only [mapSet, mapGet]
  rw [if_neg (Ne.symm h)]
  exact mapGet_delete_ne l k kx h

theorem mapDelete_eq_filter {β : Type} (l : List (String × β)) (k : String) :
    mapDelete l k = l.filter (fun p => p.1 != k) := by
  induction l with
  | nil => rfl
  | cons q rest ih =>
    obtain ⟨a, b⟩ := q
    by_cases ha : a = k <;> simp [mapDelete, List.filter_cons, ha, ih]

theorem mem_mapDelete {β : Type} (l : List (String × β)) (k : String)
    (p : String × β) : p ∈ mapDelete l k ↔ p ∈ l ∧ p.1 ≠ k := by
  rw [mapDelete_eq_filter]
  simp [List.mem_filter]

theorem findMatch_eq_none_iff (l : List (String × PendingEntry)) (sid rid : String) :
    findMatch l sid rid = none ↔
      ∀ p ∈ l, ¬(p.2.sessionId = sid ∧ p.2.requestId = rid) := by
  induction l with
  | nil => simp [findMatch]
  | cons q rest ih =>
    obtain ⟨k, e⟩ := q
    by_cases h : e.sessionId = sid ∧ e.requestId = rid
    · simp [findMatch, h]
    · simp [findMatch, h, ih]
      tauto

theorem findMatch_some_mem (l : List (String × PendingEntry)) (sid rid k : String)
    (h : findMatch l sid rid = some k) :
    ∃ e : PendingEntry, (k, e) ∈ l ∧ e.sessionId = sid ∧ e.requestId = rid := by
  induction l with
  | nil => simp [findMatch] at h
  | cons q rest ih =>
    obtain ⟨kq, e⟩ := q
    by_cases hq : e.sessionId = sid ∧ e.requestId = rid
    · simp [findMatch, hq] at h
      exact ⟨e, by simp [h], hq.1, hq.2⟩
    · simp [findMatch, hq] at h
      obtain ⟨e2, hm, h1, h2⟩ := ih h
      exact ⟨e2, by simp [hm], h1, h2⟩

theorem findMatch_ne_none_of_mem (l : List (String × PendingEntry)) (sid rid : String)
    (p : String × PendingEntry) (hm : p ∈ l)
    (hmatch : p.2.sessionId = sid ∧ p.2.requestId = rid) :
    findMatch l sid rid ≠ none := by
  intro h
  exact (findMatch_eq_none_iff l sid rid).mp h p hm hmatch

theorem promiseResolve_get_ne (ps : List (String × Option PermissionResult))
    (k kx : String) (r : PermissionResult) (h : kx ≠ k) :
    mapGet (promiseResolve ps k r) kx = mapGet ps kx := by
  induction ps with
  | nil => rfl
  | cons q rest ih =>
    obtain ⟨a, v⟩ := q
    by_cases ha : a = k
    · subst ha
      simp [promiseResolve, mapGet, Ne.symm h]
    · by_cases hx : a = kx <;> simp [promiseResolve, mapGet, ha, hx, ih, h]

theorem promiseResolve_get_self (ps : List (String × Option PermissionResult))
    (k : String) (r : PermissionResult) :
    mapGet (promiseResolve ps k r) k =
      (mapGet ps k).map (fun v => some (v.getD r)) := by
  induction ps with
  | nil => rfl
  | cons q rest ih =>
    obtain ⟨a, v⟩ := q
    by_cases ha : a = k
    · subst ha
      cases v <;> simp [promiseResolve, mapGet]
    · simp [promiseResolve, mapGet, ha, ih]

/-! ## Lemmas about the streaming loop -/

theorem quiet_step_state (command processKey : String) (ctrl : Nat) (st : RunState)
    (m : SDKMessage) (hinit : isInitEvent m = false) (hres : isResultEvent m = false) :
    (stepEvent command processKey ctrl st m).1 = st := by
  cases m with
  | assistant content sid => rfl
  | user content sid => rfl
  | system subtype sid =>
    have h : subtype ≠ "init" := by simpa [isInitEvent] using hinit
    simp [stepEvent, initTransition, resultTransition, h]
  | result subtype => simp [isResultEvent] at hres
  | other => rfl

theorem quiet_step_emits (command processKey : String) (ctrl : Nat) (st : RunState)
    (m : SDKMessage) (hinit : isInitEvent m = false) (hres : isResultEvent m = false) :
    ∀ msg ∈ (stepEvent command processKey ctrl st m).2, isClaudeResponseMsg msg = true := by
  intro msg hm
  cases m with
  | assistant content sid =>
    simp [stepEvent, convertEmits, initTransition, resultTransition] at hm
    rcases hm with h | h <;> subst h <;> rfl
  | user content sid =>
    cases content with
    | str s => simp [stepEvent, convertEmits, initTransition, resultTransition] at hm
    | blocks bs =>
      cases bs with
      | nil => simp [stepEvent, convertEmits, initTransition, resultTransition] at hm
      | cons b rest =>
        simp [stepEvent, convertEmits, initTransition, resultTransition] at hm
        subst hm; rfl
  | system subtype sid =>
    have h : subtype ≠ "init" := by simpa [isInitEvent] using hinit
    simp [stepEvent, convertEmits, initTransition, resultTransition, h] at hm
  | result subtype => simp [isResultEvent] at hres
  | other => simp [stepEvent, convertEmits, initTransition, resultTransition] at hm

theorem quiet_run (command processKey : String) (ctrl : Nat) :
    ∀ (evts : List SDKMessage) (st : RunState),
      (∀ m ∈ evts, isInitEvent m = false ∧ isResultEvent m = false) →
      (runEvents command processKey ctrl st evts).1 = st ∧
      ∀ msg ∈ (runEvents command processKey ctrl st evts).2,
        isClaudeResponseMsg msg = true := by
  intro evts
  induction evts with
  | nil =>
    intro st h
    exact ⟨rfl, by intro msg hm; simp [runEvents] at hm⟩
  | cons m rest ih =>
    intro st h
    have hm := h m (by simp)
    have hstep := quiet_step_state command processKey ctrl st m hm.1 hm.2
    have hemit := quiet_step_emits command processKey ctrl st m hm.1 hm.2
    have hr := ih (stepEvent command processKey ctrl st m).1
      (fun x hx => h x (List.mem_cons_of_mem _ hx))
    constructor
    · show (runEvents command processKey ctrl
        (stepEvent command processKey ctrl st m).1 rest).1 = st
      rw [hr.1, hstep]
    · intro msg hmsg
      simp only [runEvents, List.mem_append] at hmsg
      rcases hmsg with hmsg | hmsg
      · exact hemit msg hmsg
      · exact hr.2 msg hmsg

theorem runEvents_append (command processKey : String) (ctrl : Nat)
    (l1 l2 : List SDKMessage) :
    ∀ st : RunState,
      runEvents command processKey ctrl st (l1 ++ l2) =
        ((runEvents command processKey ctrl
            (runEvents command processKey ctrl st l1).1 l2).1,
         (runEvents command processKey ctrl st l1).2 ++
           (runEvents command processKey ctrl
             (runEvents command processKey ctrl st l1).1 l2).2) := by
  induction l1 with
  | nil => intro st; simp [runEvents]
  | cons m rest ih => intro st; simp [runEvents, ih]

theorem processKey_ne (resume : Option String) (fresh s : String)
    (hneq : some s ≠ resume) (hfresh : s ≠ fresh) : jsOr resume fresh ≠ s := by
  cases resume with
  | none => exact fun h => hfresh h.symm
  | some r =>
    simp only [jsOr]
    by_cases h : r = ""
    · simp [h]; exact fun hx => hfresh hx.symm
    · simp [h]; intro hx; exact hneq (by rw [hx])

theorem init_step_rebind (command s processKey : String) (ctrl : Nat)
    (resume : Option String)
    (hs : s ≠ "") (hneq : some s ≠ resume) (hpk : processKey ≠ s) :
    stepEvent command processKey ctrl
        { capturedSessionId := resume, sessionCreatedSent := false,
          controllers := [(processKey, ctrl)] }
        (.system "init" s) =
      ({ capturedSessionId := some s, sessionCreatedSent := true,
         controllers := [(s, ctrl)] },
       [.sessionCreated (some s)]) := by
  simp [stepEvent, convertEmits, initTransition, resultTransition, hs,
    hneq, hpk, mapSet, mapDelete]

theorem respOnly_countP_sessionCreated (l : List WSMessage)
    (h : ∀ msg ∈ l, isClaudeResponseMsg msg = true) :
    l.countP isSessionCreatedMsg = 0 := by
  refine List.countP_eq_zero.mpr ?_
  intro msg hm
  have := h msg hm
  cases msg <;> simp_all [isClaudeResponseMsg, isSessionCreatedMsg]

/-! ## Lemmas about the headless collector -/

theorem collector_messages (msgs : List WSMessage) :
    ∀ st : CollectorState,
      (msgs.foldl collectorStep st).messages =
        st.messages ++ msgs.filterMap responsePayload := by
  induction msgs with
  | nil => intro st; simp
  | cons m rest ih =>
    intro st
    rw [List.foldl_cons, ih]
    cases m with
    | sessionCreated sid =>
      by_cases h : jsTruthy sid <;> simp [collectorStep, responsePayload, h]
    | claudeComplete ec b sid =>
      by_cases h : jsTruthy sid <;> simp [collectorStep, responsePayload, h]
    | claudeResponse d sid => simp [collectorStep, responsePayload]
    | claudeError e sid => simp [collectorStep, responsePayload]
    | permissionRequest tn inp rid sid => simp [collectorStep, responsePayload]

theorem collectorStep_complete_exit (st : CollectorState) (ec : Nat) (b : Bool)
    (sid : Option String) :
    (collectorStep st (.claudeComplete ec b sid)).finalExitCode = ec := by
  by_cases h : jsTruthy sid <;> simp [collectorStep, h]

theorem collector_on_error_stream (l : List WSMessage) (e : String) (b : Bool)
    (sid1 sid2 : Option String) :
    ((l ++ [WSMessage.claudeError e sid1, WSMessage.claudeComplete 1 b sid2]).foldl
        collectorStep ⟨[], none, 0⟩).messages =
      (l ++ [WSMessage.claudeError e sid1,
        WSMessage.claudeComplete 1 b sid2]).filterMap responsePayload ∧
    observedExitCode (l ++ [WSMessage.claudeError e sid1,
      WSMessage.claudeComplete 1 b sid2]) = some 1 ∧
    ((l ++ [WSMessage.claudeError e sid1, WSMessage.claudeComplete 1 b sid2]).foldl
        collectorStep ⟨[], none, 0⟩).finalExitCode = 1 := by
  refine ⟨collector_messages _ _, ?_, ?_⟩
  · simp only [observedExitCode, List.foldl_append, List.foldl_cons, List.foldl_nil]
  · rw [List.foldl_append]
    simp only [List.foldl_cons, List.foldl_nil]
    rw [show collectorStep (List.foldl collectorStep ⟨[], none, 0⟩ l)
        (WSMessage.claudeError e sid1) = List.foldl collectorStep ⟨[], none, 0⟩ l from rfl]
    exact collectorStep_complete_exit _ 1 b sid2

/-! ## Broker invariant machinery -/

theorem present_true_of_match (sid0 rid0 : String) (st : BrokerState)
    (p : String × PendingEntry) (hm : p ∈ st.registry)
    (hmatch : p.2.sessionId = sid0 ∧ p.2.requestId = rid0) :
    present sid0 rid0 st = true := by
  unfold present
  cases hfm : findMatch st.registry sid0 rid0 with
  | none => exact absurd hfm (findMatch_ne_none_of_mem _ _ _ p hm hmatch)
  | some k => rfl

theorem present_true_elim (sid0 rid0 : String) (st : BrokerState)
    (h : present sid0 rid0 st = true) :
    ∃ p : String × PendingEntry, p ∈ st.registry ∧
      p.2.sessionId = sid0 ∧ p.2.requestId = rid0 := by
  unfold present at h
  cases hfm : findMatch st.registry sid0 rid0 with
  | none => rw [hfm] at h; simp at h
  | some k =>
    obtain ⟨e, hm, h1, h2⟩ := findMatch_some_mem _ _ _ _ hfm
    exact ⟨(k, e), hm, h1, h2⟩

theorem broker_settle_inv (key0 sid0 rid0 : String) (st : BrokerState) (k : String)
    (r : PermissionResult) (hinv : BrokerInv key0 sid0 rid0 st) :
    BrokerInv key0 sid0 rid0
      ⟨mapDelete st.registry k, promiseResolve st.promises k r⟩ := by
  obtain ⟨h1, h2, h3⟩ := hinv
  refine ⟨?_, ?_, ?_⟩
  · intro p hp hmatch
    exact h1 p ((mem_mapDelete _ _ _).mp hp).1 hmatch
  · intro e he
    exact h2 e ((mem_mapDelete _ _ _).mp he).1
  · rintro ⟨e, he⟩
    have hmem := (mem_mapDelete _ _ _).mp he
    have hcell := h3 ⟨e, hmem.1⟩
    rw [promiseResolve_get_ne _ _ _ _ hmem.2]
    exact hcell

theorem broker_settle_present_mono (sid0 rid0 : String) (st : BrokerState)
    (k : String) (r : PermissionResult)
    (h : present sid0 rid0
      ⟨mapDelete st.registry k, promiseResolve st.promises k r⟩ = true) :
    present sid0 rid0 st = true := by
  obtain ⟨p, hp, hmatch⟩ := present_true_elim _ _ _ h
  exact present_true_of_match _ _ _ p ((mem_mapDelete _ _ _).mp hp).1 hmatch

theorem broker_settle_cell_stable (key0 : String) (st : BrokerState) (k : String)
    (r r0 : PermissionResult) (hcell : mapGet st.promises key0 = some (some r0)) :
    mapGet (promiseResolve st.promises k r) key0 = some (some r0) := by
  by_cases hk : key0 = k
  · subst hk
    rw [promiseResolve_get_self, hcell]
    rfl
  · rw [promiseResolve_get_ne _ _ _ _ hk]
    exact hcell

theorem broker_step_facts (key0 sid0 rid0 : String) (st : BrokerState)
    (a : BrokerAction) (hinv : BrokerInv key0 sid0 rid0 st)
    (ha : actOkB key0 sid0 rid0 a = true) :
    BrokerInv key0 sid0 rid0 (applyBrokerAction st a).1 ∧
    (present sid0 rid0 (applyBrokerAction st a).1 = true →
      present sid0 rid0 st = true) ∧
    (∀ r : PermissionResult, mapGet st.promises key0 = some (some r) →
      mapGet (applyBrokerAction st a).1.promises key0 = some (some r)) ∧
    (∀ sid rid resp, a = BrokerAction.resolve sid rid resp → sid = sid0 → rid = rid0 →
      (applyBrokerAction st a).2 = true →
      present sid0 rid0 st = true ∧
      present sid0 rid0 (applyBrokerAction st a).1 = false) := by
  cases a with
  | resolve sid rid resp =>
    simp only [applyBrokerAction, handlePermissionResponse]
    cases hfm : findMatch st.registry sid rid with
    | none =>
      refine ⟨hinv, fun h => h, fun r h => h, ?_⟩
      rintro sid2 rid2 resp2 heq h1 h2 hres
      simp at hres
    | some k =>
      obtain ⟨e, hemem, he1, he2⟩ := findMatch_some_mem _ _ _ _ hfm
      refine ⟨broker_settle_inv key0 sid0 rid0 st k resp hinv,
        broker_settle_present_mono sid0 rid0 st k resp,
        fun r h => broker_settle_cell_stable key0 st k resp r h, ?_⟩
      rintro sid2 rid2 resp2 heq h1 h2 hres
      cases heq
      have hm1 : e.sessionId = sid0 := he1.trans h1
      have hm2 : e.requestId = rid0 := he2.trans h2
      have hkey : k = key0 := hinv.1 (k, e) hemem ⟨hm1, hm2⟩
      constructor
      · exact present_true_of_match _ _ _ (k, e) hemem ⟨hm1, hm2⟩
      · unfold present
        have hnone : findMatch (mapDelete st.registry k) sid0 rid0 = none := by
          rw [findMatch_eq_none_iff]
          intro p hp hmatch
          have hmem := (mem_mapDelete _ _ _).mp hp
          have : p.1 = key0 := hinv.1 p hmem.1 hmatch
          exact hmem.2 (by rw [this, ← hkey])
        rw [hnone]
        rfl
  | fireTimeout k =>
    simp only [applyBrokerAction, timeoutFire]
    cases hget : mapGet st.registry k with
    | none =>
      refine ⟨hinv, fun h => h, fun r h => h, ?_⟩
      rintro sid2 rid2 resp2 heq
      simp at heq
    | some ek =>
      refine ⟨broker_settle_inv key0 sid0 rid0 st k _ hinv,
        broker_settle_present_mono sid0 rid0 st k _,
        fun r h => broker_settle_cell_stable key0 st k _ r h, ?_⟩
      rintro sid2 rid2 resp2 heq
      simp at heq
  | register k e =>
    simp only [actOkB, Bool.and_eq_true, bne_iff_ne, Bool.not_eq_true'] at ha
    obtain ⟨hk, hmatch⟩ := ha
    have hmatch2 : ¬(e.sessionId = sid0 ∧ e.requestId = rid0) := by
      intro hc
      rw [hc.1, hc.2] at hmatch
      simp at hmatch
    simp only [applyBrokerAction, registerPermissionRequest]
    have hmemset : ∀ p : String × PendingEntry, p ∈ mapSet st.registry k e →
        p = (k, e) ∨ (p ∈ st.registry ∧ p.1 ≠ k) := by
      intro p hp
      rw [mapSet, List.mem_cons] at hp
      rcases hp with hp | hp
      · exact Or.inl hp
      · exact Or.inr ((mem_mapDelete _ _ _).mp hp)
    refine ⟨⟨?_, ?_, ?_⟩, ?_, ?_, ?_⟩
    · intro p hp hmatchp
      rcases hmemset p hp with hp2 | hp2
      · subst hp2; exact absurd hmatchp hmatch2
      · exact hinv.1 p hp2.1 hmatchp
    · intro e2 he2
      rcases hmemset (key0, e2) he2 with hp2 | hp2
      · exact absurd (Prod.mk.inj hp2).1 (Ne.symm hk)
      · exact hinv.2.1 e2 hp2.1
    · rintro ⟨e2, he2⟩
      rcases hmemset (key0, e2) he2 with hp2 | hp2
      · exact absurd (Prod.mk.inj hp2).1 (Ne.symm hk)
      · rw [mapGet_set_ne _ _ _ _ (Ne.symm hk)]
        exact hinv.2.2 ⟨e2, hp2.1⟩
    · intro h
      obtain ⟨p, hp, hmatchp⟩ := present_true_elim _ _ _ h
      rcases hmemset p hp with hp2 | hp2
      · subst hp2; exact absurd hmatchp hmatch2
      · exact present_true_of_match _ _ _ p hp2.1 hmatchp
    · intro r h
      rw [mapGet_set_ne _ _ _ _ (Ne.symm hk)]
      exact h
    · rintro sid2 rid2 resp2 heq
      simp at heq

theorem broker_run_facts (key0 sid0 rid0 : String) :
    ∀ (acts : List BrokerAction) (st : BrokerState),
      BrokerInv key0 sid0 rid0 st →
      (∀ a ∈ acts, actOkB key0 sid0 rid0 a = true) →
      BrokerInv key0 sid0 rid0 (runBroker st acts) ∧
      resolveSuccesses sid0 rid0 st acts ≤
        (if present sid0 rid0 st = true then 1 else 0) ∧
      (present sid0 rid0 (runBroker st acts) = true →
        present sid0 rid0 st = true) ∧
      (∀ r : PermissionResult, mapGet st.promises key0 = some (some r) →
        mapGet (runBroker st acts).promises key0 = some (some r)) := by
  intro acts
  induction acts with
  | nil =>
    intro st hinv hok
    exact ⟨hinv, by simp [resolveSuccesses], fun h => h, fun r h => h⟩
  | cons a rest ih =>
    intro st hinv hok
    have hstep := broker_step_facts key0 sid0 rid0 st a hinv (hok a (by simp))
    have hrest := ih (applyBrokerAction st a).1 hstep.1
      (fun x hx => hok x (List.mem_cons_of_mem _ hx))
    have hle : ∀ (b1 b2 : Bool), (b1 = true → b2 = true) →
        (if b1 = true then (1 : Nat) else 0) ≤ (if b2 = true then 1 else 0) := by
      intro b1 b2 hb
      cases b1 <;> cases b2 <;> simp_all
    refine ⟨hrest.1, ?_,
      fun h => hstep.2.1 (hrest.2.2.1 h),
      fun r h => hrest.2.2.2 r (hstep.2.2.1 r h)⟩
    cases a with
    | resolve sid rid resp =>
      by_cases hc : sid = sid0 ∧ rid = rid0 ∧
          (applyBrokerAction st (BrokerAction.resolve sid rid resp)).2 = true
      · have h4 := hstep.2.2.2 sid rid resp rfl hc.1 hc.2.1 hc.2.2
        have hz : resolveSuccesses sid0 rid0
            (applyBrokerAction st (BrokerAction.resolve sid rid resp)).1 rest = 0 := by
          have hb := hrest.2.1
          rw [h4.2] at hb
          simpa using hb
        have hgoal : resolveSuccesses sid0 rid0 st
            (BrokerAction.resolve sid rid resp :: rest) =
            1 + resolveSuccesses sid0 rid0
              (applyBrokerAction st (BrokerAction.resolve sid rid resp)).1 rest := by
          simp only [resolveSuccesses, if_pos hc]
        rw [hgoal, hz, if_pos h4.1]
      · have hgoal : resolveSuccesses sid0 rid0 st
            (BrokerAction.resolve sid rid resp :: rest) =
            0 + resolveSuccesses sid0 rid0
              (applyBrokerAction st (BrokerAction.resolve sid rid resp)).1 rest := by
          simp only [resolveSuccesses, if_neg hc]
        rw [hgoal]
        exact le_trans (by simpa using hrest.2.1) (hle _ _ hstep.2.1)
    | fireTimeout k =>
      have hgoal : resolveSuccesses sid0 rid0 st (BrokerAction.fireTimeout k :: rest) =
          0 + resolveSuccesses sid0 rid0
            (applyBrokerAction st (BrokerAction.fireTimeout k)).1 rest := by
        simp only [resolveSuccesses]
      rw [hgoal]
      exact le_trans (by simpa using hrest.2.1) (hle _ _ hstep.2.1)
    | register k e =>
      have hgoal : resolveSuccesses sid0 rid0 st (BrokerAction.register k e :: rest) =
          0 + resolveSuccesses sid0 rid0
            (applyBrokerAction st (BrokerAction.register k e)).1 rest := by
        simp only [resolveSuccesses]
      rw [hgoal]
      exact le_trans (by simpa using hrest.2.1) (hle _ _ hstep.2.1)

theorem mapGet_some_mem {β : Type} (l : List (String × β)) (k : String) (v : β)
    (h : mapGet l k = some v) : (k, v) ∈ l := by
  induction l with
  | nil => simp [mapGet] at h
  | cons p rest ih =>
    obtain ⟨a, b⟩ := p
    by_cases ha : a = k
    · subst ha
      simp [mapGet] at h
      simp [h]
    · simp [mapGet, ha] at h
      simp [ih h]

theorem register_inv (key0 sid0 rid0 : String) (reg0 : List (String × PendingEntry))
    (proms0 : List (String × Option PermissionResult))
    (hreg : ∀ p ∈ reg0, ¬(p.2.sessionId = sid0 ∧ p.2.requestId = rid0)) :
    BrokerInv key0 sid0 rid0
      (registerPermissionRequest ⟨reg0, proms0⟩ key0
        { requestId := rid0, sessionId := sid0 }) := by
  refine ⟨?_, ?_, ?_⟩
  · intro p hp hmatch
    rw [registerPermissionRequest, mapSet, List.mem_cons] at hp
    rcases hp with hp | hp
    · rw [hp]
    · exact absurd hmatch (hreg p ((mem_mapDelete _ _ _).mp hp).1)
  · intro e2 he2
    rw [registerPermissionRequest, mapSet, List.mem_cons] at he2
    rcases he2 with he2 | he2
    · rw [(Prod.mk.inj he2).2]
      exact ⟨rfl, rfl⟩
    · exact absurd rfl ((mem_mapDelete _ _ _).mp he2).2
  · intro _
    exact mapGet_set_self _ _ _

theorem register_present (key0 sid0 rid0 : String)
    (reg0 : List (String × PendingEntry))
    (proms0 : List (String × Option PermissionResult)) :
    present sid0 rid0
      (registerPermissionRequest ⟨reg0, proms0⟩ key0
        { requestId := rid0, sessionId := sid0 }) = true := by
  refine present_true_of_match _ _ _
    (key0, { requestId := rid0, sessionId := sid0 }) ?_ ⟨rfl, rfl⟩
  rw [registerPermissionRequest, mapSet]
  exact List.mem_cons_self _ _

theorem settled_no_match (key0 sid0 rid0 : String) (st : BrokerState)
    (r : PermissionResult) (hinv : BrokerInv key0 sid0 rid0 st)
    (hcell : mapGet st.promises key0 = some (some r)) :
    findMatch st.registry sid0 rid0 = none := by
  rw [findMatch_eq_none_iff]
  intro p hp hmatch
  have hp1 : p.1 = key0 := hinv.1 p hp hmatch
  have hmem : (key0, p.2) ∈ st.registry := by
    rw [← hp1]
    exact hp
  have := hinv.2.2 ⟨p.2, hmem⟩
  rw [this] at hcell
  simp at hcell
/-! ## Claim theorems -/

/-- Claim C1 (code bug evaluation).  End-to-end scenario 1 of the
specification: prompt "hello", no resume identifier, engine emits
`init{session_id: "s1"}`, an assistant turn, then `result{subtype: "success"}`.
The orchestrator emits exactly one `claude-complete` message with exit code 0
and the final session identifier "s1", and removes the cancellation-handle
registration — but the new-session flag it carries is `false`, not `true` as
the claim requires, because the source computes `!capturedSessionId &&
!!command` at completion time, after the init event has already set
`capturedSessionId` to "s1". -/
theorem claude_complete_scenario1_eval :
    spawnClaudeModel "hello" none "1000" 0 [] scenario1Events =
      ({ capturedSessionId := some "s1", sessionCreatedSent := true,
         controllers := [] },
       [.sessionCreated (some "s1"),
        .claudeResponse (.assistantData [{ btype := "text", payload := "hi" }] "s1")
          (some "s1"),
        .claudeResponse (.contentOnly [{ btype := "text", payload := "hi" }])
          (some "s1"),
        .claudeComplete 0 false (some "s1")]) := by decide

/-- Claim C2.  If the engine reports one `init` event whose (truthy) session
identifier differs from the requested one — and also from the provisional
process key — then across the invocation exactly one `session-created`
message is emitted, the tracked session identity is updated to the new
identifier, and the cancellation-handle registration is moved under the new
key: a subsequent abort with the new identifier returns `true` while an abort
with the invocation's original process key returns `false`.  The surrounding
events may be any mix of assistant, user, non-init system and dropped events
(the single-init, no-result hypothesis matches the specification's "only one
rebind ever" assumption and keeps the controller registered). -/
theorem session_rebind_single_init
    (command fresh s : String) (resume : Option String) (ctrl : Nat)
    (pre post : List SDKMessage) (stF : RunState) (out : List WSMessage)
    (hpre : ∀ m ∈ pre, isInitEvent m = false ∧ isResultEvent m = false)
    (hpost : ∀ m ∈ post, isInitEvent m = false ∧ isResultEvent m = false)
    (hs : s ≠ "") (hneq : some s ≠ resume) (hfresh : s ≠ fresh)
    (hrun : spawnClaudeModel command resume fresh ctrl []
        (pre ++ SDKMessage.system "init" s :: post) = (stF, out)) :
    out.countP isSessionCreatedMsg = 1 ∧
    stF.capturedSessionId = some s ∧
    (abortClaudeSession stF.controllers s).2 = true ∧
    (abortClaudeSession stF.controllers (jsOr resume fresh)).2 = false := by
  have hpk : jsOr resume fresh ≠ s := processKey_ne resume fresh s hneq hfresh
  set pk := jsOr resume fresh with hpkdef
  have hst0 : (⟨resume, false, mapSet [] pk ctrl⟩ : RunState) =
      ⟨resume, false, [(pk, ctrl)]⟩ := by simp [mapSet, mapDelete]
  have hquiet1 := quiet_run command pk ctrl pre
    (⟨resume, false, [(pk, ctrl)]⟩ : RunState) hpre
  have hinit := init_step_rebind command s pk ctrl resume hs hneq hpk
  have hquiet2 := quiet_run command pk ctrl post
    (⟨some s, true, [(s, ctrl)]⟩ : RunState) hpost
  have hsplit := runEvents_append command pk ctrl pre
    (SDKMessage.system "init" s :: post)
    (⟨resume, false, [(pk, ctrl)]⟩ : RunState)
  rw [hquiet1.1] at hsplit
  have hcons : runEvents command pk ctrl (⟨resume, false, [(pk, ctrl)]⟩ : RunState)
      (SDKMessage.system "init" s :: post) =
      ((runEvents command pk ctrl (⟨some s, true, [(s, ctrl)]⟩ : RunState) post).1,
       [WSMessage.sessionCreated (some s)] ++
         (runEvents command pk ctrl (⟨some s, true, [(s, ctrl)]⟩ : RunState) post).2) := by
    simp only [runEvents, hinit]
  rw [hcons, hquiet2.1] at hsplit
  have hrun2 : spawnClaudeModel command resume fresh ctrl []
      (pre ++ SDKMessage.system "init" s :: post) =
      (⟨some s, true, [(s, ctrl)]⟩,
       (runEvents command pk ctrl (⟨resume, false, [(pk, ctrl)]⟩ : RunState) pre).2 ++
         ([WSMessage.sessionCreated (some s)] ++
           (runEvents command pk ctrl (⟨some s, true, [(s, ctrl)]⟩ : RunState) post).2)) := by
    show runEvents command pk ctrl (⟨resume, false, mapSet [] pk ctrl⟩ : RunState)
        (pre ++ SDKMessage.system "init" s :: post) = _
    rw [hst0, hsplit]
  rw [hrun2] at hrun
  obtain ⟨hstF, hout⟩ := Prod.mk.inj hrun
  subst hstF
  subst hout
  refine ⟨?_, rfl, ?_, ?_⟩
  · simp only [List.countP_append]
    rw [respOnly_countP_sessionCreated _ hquiet1.2,
      respOnly_countP_sessionCreated _ hquiet2.2]
    rfl
  · simp [abortClaudeSession, mapGet]
  · simp [abortClaudeSession, mapGet, Ne.symm hpk]

/-- Witness for `session_rebind_single_init`: prompt "hello", no resume
identifier, provisional key "1000", single event `init{session_id: "s1"}`. -/
theorem session_rebind_single_init_witness :
    ([WSMessage.sessionCreated (some "s1")] : List WSMessage).countP
      isSessionCreatedMsg = 1 ∧
    (⟨some "s1", true, [("s1", 0)]⟩ : RunState).capturedSessionId = some "s1" ∧
    (abortClaudeSession
      (⟨some "s1", true, [("s1", 0)]⟩ : RunState).controllers "s1").2 = true ∧
    (abortClaudeSession
      (⟨some "s1", true, [("s1", 0)]⟩ : RunState).controllers
      (jsOr none "1000")).2 = false :=
  session_rebind_single_init "hello" "1000" "s1" none 0 [] []
    ⟨some "s1", true, [("s1", 0)]⟩ [WSMessage.sessionCreated (some "s1")]
    (by simp) (by simp) (by decide) (by decide) (by decide) (by decide)

/-- Claim C3.  A registered pending approval is settled at most once.
Starting from any registry without an entry for the tracked (session, request)
pair, registering the approval under its composite key and then running any
sequence of broker operations (external resolutions, timer firings, and
registrations of other approvals under fresh keys and pairs) yields at most
one successful `handlePermissionResponse` for the pair; and once the
approval's promise is settled with some decision, the registry entry is gone,
any further `handlePermissionResponse` call for the pair returns `false` and
leaves the broker state unchanged, and the settled decision survives any
further sequence of broker operations. -/
theorem pending_approval_settled_at_most_once
    (key0 sid0 rid0 : String) (reg0 : List (String × PendingEntry))
    (proms0 : List (String × Option PermissionResult))
    (acts acts2 : List BrokerAction) (r d : PermissionResult) (stF : BrokerState)
    (hreg : ∀ p ∈ reg0, ¬(p.2.sessionId = sid0 ∧ p.2.requestId = rid0))
    (hacts : ∀ a ∈ acts, actOkB key0 sid0 rid0 a = true)
    (hacts2 : ∀ a ∈ acts2, actOkB key0 sid0 rid0 a = true)
    (hrun : runBroker (registerPermissionRequest ⟨reg0, proms0⟩ key0
        { requestId := rid0, sessionId := sid0 }) acts = stF) :
    resolveSuccesses sid0 rid0 (registerPermissionRequest ⟨reg0, proms0⟩ key0
      { requestId := rid0, sessionId := sid0 }) acts ≤ 1 ∧
    (mapGet stF.promises key0 = some (some r) →
      mapGet stF.registry key0 = none ∧
      handlePermissionResponse stF sid0 rid0 d = (stF, false) ∧
      mapGet (runBroker stF acts2).promises key0 = some (some r)) := by
  subst hrun
  have hinv := register_inv key0 sid0 rid0 reg0 proms0 hreg
  have hfacts := broker_run_facts key0 sid0 rid0 acts _ hinv hacts
  constructor
  · have hb := hfacts.2.1
    rw [if_pos (register_present key0 sid0 rid0 reg0 proms0)] at hb
    exact hb
  · intro hcell
    have hnomatch := settled_no_match key0 sid0 rid0 _ r hfacts.1 hcell
    refine ⟨?_, ?_, ?_⟩
    · cases hget : mapGet (runBroker (registerPermissionRequest ⟨reg0, proms0⟩ key0
          { requestId := rid0, sessionId := sid0 }) acts).registry key0 with
      | none => rfl
      | some e2 =>
        have hmem := mapGet_some_mem _ _ _ hget
        have := hfacts.1.2.2 ⟨e2, hmem⟩
        rw [this] at hcell
        simp at hcell
    · rw [handlePermissionResponse, hnomatch]
    · have hfacts2 := broker_run_facts key0 sid0 rid0 acts2 _ hfacts.1 hacts2
      exact hfacts2.2.2.2 r hcell

/-- Witness for `pending_approval_settled_at_most_once`: the approval for
session "s" and request "r" under key "s:r" is resolved twice in sequence;
the first resolution succeeds, the second returns `false`, and a later timer
firing does not disturb the settled decision. -/
theorem pending_approval_settled_at_most_once_witness :
    resolveSuccesses "s" "r" (registerPermissionRequest ⟨[], []⟩ "s:r"
      { requestId := "r", sessionId := "s" })
      [BrokerAction.resolve "s" "r" (.allow []),
       BrokerAction.resolve "s" "r" (.deny "x")] ≤ 1 ∧
    (mapGet (⟨[], [("s:r", some (.allow []))]⟩ : BrokerState).promises "s:r" =
        some (some (.allow [])) →
      mapGet (⟨[], [("s:r", some (.allow []))]⟩ : BrokerState).registry "s:r" =
        none ∧
      handlePermissionResponse (⟨[], [("s:r", some (.allow []))]⟩ : BrokerState)
          "s" "r" (.deny "late") =
        (⟨[], [("s:r", some (.allow []))]⟩, false) ∧
      mapGet (runBroker (⟨[], [("s:r", some (.allow []))]⟩ : BrokerState)
          [BrokerAction.fireTimeout "s:r"]).promises "s:r" =
        some (some (.allow []))) :=
  pending_approval_settled_at_most_once "s:r" "s" "r" [] []
    [BrokerAction.resolve "s" "r" (.allow []),
     BrokerAction.resolve "s" "r" (.deny "x")]
    [BrokerAction.fireTimeout "s:r"] (.allow []) (.deny "late")
    ⟨[], [("s:r", some (.allow []))]⟩
    (by simp) (by decide) (by decide) (by decide)

/-- Claim C4.  A pending approval that receives no external resolution within
the configured window (100 seconds: `permissionRequestTimeoutMs = 100 * 1000`
milliseconds) is resolved by the broker itself: the timer callback settles the
promise with a deny decision carrying the message "Permission request timed
out" and removes the registry entry, so that any subsequent
`handlePermissionResponse` call for the (session, request) pair returns
`false` and changes nothing. -/
theorem pending_approval_timeout_denies
    (key0 sid0 rid0 : String) (reg0 : List (String × PendingEntry))
    (proms0 : List (String × Option PermissionResult)) (d : PermissionResult)
    (hreg : ∀ p ∈ reg0, ¬(p.2.sessionId = sid0 ∧ p.2.requestId = rid0)) :
    mapGet (timeoutFire (registerPermissionRequest ⟨reg0, proms0⟩ key0
        { requestId := rid0, sessionId := sid0 }) key0).promises key0 =
      some (some (.deny "Permission request timed out")) ∧
    mapGet (timeoutFire (registerPermissionRequest ⟨reg0, proms0⟩ key0
        { requestId := rid0, sessionId := sid0 }) key0).registry key0 = none ∧
    handlePermissionResponse
        (timeoutFire (registerPermissionRequest ⟨reg0, proms0⟩ key0
          { requestId := rid0, sessionId := sid0 }) key0) sid0 rid0 d =
      (timeoutFire (registerPermissionRequest ⟨reg0, proms0⟩ key0
        { requestId := rid0, sessionId := sid0 }) key0, false) ∧
    permissionRequestTimeoutMs = 100 * 1000 := by
  have hget : mapGet (registerPermissionRequest ⟨reg0, proms0⟩ key0
      { requestId := rid0, sessionId := sid0 }).registry key0 =
      some { requestId := rid0, sessionId := sid0 } := mapGet_set_self _ _ _
  have hfire : timeoutFire (registerPermissionRequest ⟨reg0, proms0⟩ key0
      { requestId := rid0, sessionId := sid0 }) key0 =
      ⟨mapDelete (mapSet reg0 key0 { requestId := rid0, sessionId := sid0 }) key0,
       promiseResolve (mapSet proms0 key0 none) key0
         (.deny "Permission request timed out")⟩ := by
    simp only [timeoutFire, registerPermissionRequest] at hget ⊢
    rw [hget]
  have hnomatch : findMatch
      (mapDelete (mapSet reg0 key0 { requestId := rid0, sessionId := sid0 }) key0)
      sid0 rid0 = none := by
    rw [findMatch_eq_none_iff]
    intro p hp hmatch
    have hmem := (mem_mapDelete _ _ _).mp hp
    rw [mapSet, List.mem_cons] at hmem
    rcases hmem.1 with hm | hm
    · exact hmem.2 (by rw [hm])
    · exact hreg p ((mem_mapDelete _ _ _).mp hm).1 hmatch
  refine ⟨?_, ?_, ?_, rfl⟩
  · rw [hfire]
    show mapGet (promiseResolve (mapSet proms0 key0 none) key0
      (.deny "Permission request timed out")) key0 = _
    rw [promiseResolve_get_self, mapGet_set_self]
    rfl
  · rw [hfire]
    exact mapGet_delete_self _ _
  · rw [hfire, handlePermissionResponse]
    simp only [hnomatch]

/-- Witness for `pending_approval_timeout_denies`: the approval for session
"s" and request "r" under key "s:r" times out; a late resolve then fails. -/
theorem pending_approval_timeout_denies_witness :
    mapGet (timeoutFire (registerPermissionRequest ⟨[], []⟩ "s:r"
        { requestId := "r", sessionId := "s" }) "s:r").promises "s:r" =
      some (some (.deny "Permission request timed out")) ∧
    mapGet (timeoutFire (registerPermissionRequest ⟨[], []⟩ "s:r"
        { requestId := "r", sessionId := "s" }) "s:r").registry "s:r" = none ∧
    handlePermissionResponse
        (timeoutFire (registerPermissionRequest ⟨[], []⟩ "s:r"
          { requestId := "r", sessionId := "s" }) "s:r") "s" "r" (.deny "late") =
      (timeoutFire (registerPermissionRequest ⟨[], []⟩ "s:r"
        { requestId := "r", sessionId := "s" }) "s:r", false) ∧
    permissionRequestTimeoutMs = 100 * 1000 :=
  pending_approval_timeout_denies "s:r" "s" "r" [] [] (.deny "late") (by simp)

/-- Claim C5.  `isApprovableTool` is a pure total function on arbitrary
strings that returns `true` precisely for the members of the fixed closed set
of approval-requiring tool categories — file write (`Write`), file edit
(`Edit`), multi-file edit (`MultiEdit`), shell execution (`Bash`), pattern
search (`Glob`), external-web fetch (`WebFetch`), external-web search
(`WebSearch`) and generic external-integration calls (`MCPTool`) — and
`false` for every other string. -/
theorem isApprovableTool_closed_set (value : String) :
    isApprovableTool value = approvalRequiringToolNames.contains value := by
  simp only [isApprovableTool, ApprovableTools, approvalRequiringToolNames,
    List.contains, List.elem_eq_mem]
  rw [Bool.eq_iff_iff]
  simp only [List.mem_cons, Bool.or_eq_true, decide_eq_true_eq]
  tauto

/-- Claim C6 (code bug evaluation).  A failure "boom" thrown before any
engine event, with prompt "hello" and no resume identifier: the error path
emits the required `claude-error` message followed by `claude-complete` with
exit code 1 (and the source then re-raises the failure), but it does not
remove the cancellation-handle registration — the source deletes the key
`capturedSessionId || Date.now().toString()` where `Date.now()` is re-read at
error time ("1001"), which differs from the provisional process key "1000"
the controller was registered under, so the entry `("1000", 7)` survives. -/
theorem error_path_controller_leak_eval :
    spawnClaudeOnError "hello" none "1000" "1001" "boom" 7 [] [] =
      ({ capturedSessionId := none, sessionCreatedSent := false,
         controllers := [("1000", 7)] },
       [.claudeError "boom" none, .claudeComplete 1 true none]) := by decide

/-- Claim C7.  For every approval-requiring tool name, if no session
identifier is known when `canUseTool` is invoked (`capturedSessionId` is
absent or empty, hence falsy), the callback returns an immediate deny
decision with the message "Cannot approve permission without a session ID",
registers no pending approval and emits no message to the sink. -/
theorem canUseTool_denies_without_session (toolName : String) (input : ToolInput)
    (resume capturedSessionId : Option String) (requestId : String)
    (happr : isApprovableTool toolName = true)
    (hsid : jsTruthy capturedSessionId = false) :
    canUseTool resume capturedSessionId toolName input requestId =
      { outcome := .immediate (.deny "Cannot approve permission without a session ID"),
        sent := [], registered := none } := by
  simp [canUseTool, happr, hsid]

/-- Witness for `canUseTool_denies_without_session`: tool "Bash" invoked with
no session identifier known. -/
theorem canUseTool_denies_without_session_witness :
    canUseTool none none "Bash" [("command", "ls")] "req-1" =
      { outcome := .immediate (.deny "Cannot approve permission without a session ID"),
        sent := [], registered := none } :=
  canUseTool_denies_without_session "Bash" [("command", "ls")] none none "req-1"
    (by decide) (by decide)

/-- Claim C8.  For every tool name that is not approval-requiring and every
input object, `canUseTool` returns an allow decision whose updated input is
the original input unmodified, registers nothing in the pending-approval
registry and emits nothing to the sink. -/
theorem canUseTool_allows_non_approvable (toolName : String) (input : ToolInput)
    (resume capturedSessionId : Option String) (requestId : String)
    (happr : isApprovableTool toolName = false) :
    canUseTool resume capturedSessionId toolName input requestId =
      { outcome := .immediate (.allow input), sent := [], registered := none } := by
  simp [canUseTool, happr]

/-- Witness for `canUseTool_allows_non_approvable`: tool "Read" with a
concrete input, session known. -/
theorem canUseTool_allows_non_approvable_witness :
    canUseTool (some "s1") (some "s1") "Read" [("file_path", "a.txt")] "req-2" =
      { outcome := .immediate (.allow [("file_path", "a.txt")]),
        sent := [], registered := none } :=
  canUseTool_allows_non_approvable "Read" [("file_path", "a.txt")]
    (some "s1") (some "s1") "req-2" (by decide)

/-- Claim C9.  The headless entry point never propagates a failure from the
underlying invocation (its model is a total function built from the catch
branch of the source): whenever `spawnClaude` throws after emitting some
prefix of sink messages, `spawnClaudeHeadless` still returns a
`HeadlessResult` whose message list is exactly the sequence of
`claude-response` payloads that reached the collector before the failure, and
whose exit code is the last observed completion exit code — which is 1, since
the error path of `spawnClaude` itself emits `claude-complete` with exit
code 1 before re-raising, so the default-to-1 branch (`finalExitCode || 1`)
is only reachable when no completion was observed at all. -/
theorem headless_error_returns_partial_results (command : String)
    (resume : Option String) (fresh freshErr errText : String) (ctrl : Nat)
    (events : List SDKMessage) :
    (spawnClaudeHeadlessOnError command resume fresh freshErr errText ctrl
        events).messages =
      (spawnClaudeOnError command resume fresh freshErr errText ctrl []
        events).2.filterMap responsePayload ∧
    observedExitCode
      (spawnClaudeOnError command resume fresh freshErr errText ctrl []
        events).2 = some 1 ∧
    (spawnClaudeHeadlessOnError command resume fresh freshErr errText ctrl
        events).exitCode = 1 := by
  obtain ⟨st, l, hp⟩ : ∃ st l, runEvents command (jsOr resume fresh) ctrl
      (⟨resume, false, mapSet [] (jsOr resume fresh) ctrl⟩ : RunState) events =
      (st, l) := ⟨_, _, rfl⟩
  have hemit : (spawnClaudeOnError command resume fresh freshErr errText ctrl
      [] events).2 =
      l ++ [WSMessage.claudeError errText st.capturedSessionId,
        WSMessage.claudeComplete 1
          (!jsTruthy st.capturedSessionId && !(command == ""))
          st.capturedSessionId] := by
    simp only [spawnClaudeOnError, hp]
  have hgen := collector_on_error_stream l errText
    (!jsTruthy st.capturedSessionId && !(command == ""))
    st.capturedSessionId st.capturedSessionId
  refine ⟨?_, ?_, ?_⟩
  · show (List.foldl collectorStep ⟨[], none, 0⟩
        (spawnClaudeOnError command resume fresh freshErr errText ctrl []
          events).2).messages = _
    rw [hemit]
    exact hgen.1
  · rw [hemit]
    exact hgen.2.1
  · show (if (List.foldl collectorStep ⟨[], none, 0⟩
        (spawnClaudeOnError command resume fresh freshErr errText ctrl []
          events).2).finalExitCode = 0 then 1
      else (List.foldl collectorStep ⟨[], none, 0⟩
        (spawnClaudeOnError command resume fresh freshErr errText ctrl []
          events).2).finalExitCode) = 1
    rw [hemit, hgen.2.2]
    simp

/-- Claim C10.  For every engine event tagged as a user turn, the
orchestrator's per-event transition leaves the run state unchanged and emits
exactly one `claude-response` message whose payload has type `tool_result`
with the content array passed through unchanged when the message content is a
non-empty block array — the source's check on the first block's type selects
between two identical conversions, so this holds even when the first block is
plain text — and emits nothing when the content is a string or an empty
array. -/
theorem user_turn_tool_result_passthrough (command processKey : String)
    (ctrl : Nat) (st : RunState) (uc : UserContent) (sid : String) :
    stepEvent command processKey ctrl st (.user uc sid) =
      (st,
       match uc with
       | .str _ => []
       | .blocks bs =>
         if bs.length > 0 then
           [WSMessage.claudeResponse (.toolResultData bs) st.capturedSessionId]
         else []) := by
  cases uc with
  | str s => simp [stepEvent, convertEmits, initTransition, resultTransition]
  | blocks bs =>
    cases bs with
    | nil => simp [stepEvent, convertEmits, initTransition, resultTransition]
    | cons b rest =>
      simp [stepEvent, convertEmits, initTransition, resultTransition]
